import Mathlib

/-!
Shallow embedding of the cgroup memory manager (src/main.rs) and proofs of
the specification claims.

Modelling conventions:
* `u64` values become `Nat`; `f64` arithmetic in the percent-threshold
  comparison becomes exact rational arithmetic over `ℚ`.
* `Instant` timestamps and the nanosecond-precision `Duration` become `Nat`
  nanoseconds; `Duration::as_secs` is truncating division by `10^9`.
* Filesystem paths become `List Nat` (abstract name components); file reads
  become explicit `Option` inputs, where `none` is an I/O failure.
-/

namespace CgroupMM

/-- Directory paths, as lists of abstract name components (root = `[]`). -/
abbrev DirPath := List Nat

/-- `Threshold` from src/main.rs: `Bytes(u64) | Percent(f64)`.
The `f64` percent is modelled as an exact rational. -/
inductive Threshold where
  | Bytes : Nat → Threshold
  | Percent : ℚ → Threshold
deriving DecidableEq

/-- `MemoryStats` from src/main.rs (fields in source order). -/
structure MemoryStats where
  limit : Nat
  cache : Nat
  rss : Nat
deriving DecidableEq

/-- `ReclaimState` from src/main.rs; `Instant` timestamps are `Nat` nanoseconds. -/
structure ReclaimState where
  last_seen : Option Nat
  last_reclaimed : Option Nat
  last_error : Option Nat
deriving DecidableEq

/-- `ReclaimLoop` from src/main.rs: the configuration carried by `self`. -/
structure ReclaimLoop where
  parent : DirPath
  threshold : Threshold
  interval : Nat
  cooldown : Nat

/-- `Duration::as_secs` on a nanosecond duration: whole seconds, truncated. -/
def duration_as_secs (nanos : Nat) : Nat := nanos / 1000000000

/-- `ReclaimLoop::needs_to_be_reclaimed` (src/main.rs:162-171).
`Bytes`: `stats.cache >= threshold`.
`Percent`: `stats.limit > 0 && stats.cache as f64 >= stats.limit as f64 * (threshold / 100)`. -/
def ReclaimLoop.needs_to_be_reclaimed (l : ReclaimLoop) (stats : MemoryStats) : Bool :=
  match l.threshold with
  | .Bytes threshold => decide (stats.cache ≥ threshold)
  | .Percent threshold =>
      decide (stats.limit > 0) &&
      decide ((stats.cache : ℚ) ≥ (stats.limit : ℚ) * (threshold / 100))

/-- `ReclaimLoop::can_be_reclaimed` (src/main.rs:149-160). `now` is the
`Instant::now()` taken inside the function; `now.duration_since(last_reclaimed)`
is `Nat` subtraction (the code never reclaims in the future). -/
def ReclaimLoop.can_be_reclaimed (l : ReclaimLoop) (stats : MemoryStats)
    (state : ReclaimState) (now : Nat) : Bool :=
  if l.needs_to_be_reclaimed stats then
    match state.last_reclaimed with
    | some last_reclaimed => decide (duration_as_secs (now - last_reclaimed) > l.cooldown)
    | none => true
  else false

/-- `ReclaimLoop::reclaim_cgroup` (src/main.rs:136-147). The three I/O
operations it performs are explicit inputs: `read1` is the first
`get_memory_stats` result, `writeRes` the `reclaim(path)` (force_empty write)
result, `read2` the post-trigger `get_memory_stats` result; `none` is failure.
`tCheck` is the `Instant::now()` inside `can_be_reclaimed`, `tTrigger` the one
taken after a successful trigger. Because the Rust function mutates `state`
through `&mut` even when it returns `Err` (the `?` on the second read fires
after `last_reclaimed` was assigned), the model returns the final state
alongside the `Result`. -/
def reclaim_cgroup (l : ReclaimLoop) (read1 : Option MemoryStats)
    (writeRes : Option Unit) (read2 : Option MemoryStats)
    (state : ReclaimState) (tCheck tTrigger : Nat) :
    ReclaimState × Except Unit Unit :=
  match read1 with
  | none => (state, .error ())
  | some stats =>
    if l.can_be_reclaimed stats state tCheck then
      match writeRes with
      | none => (state, .error ())
      | some _ =>
        let state' := { state with last_reclaimed := some tTrigger }
        match read2 with
        | none => (state', .error ())
        | some _ => (state', .ok ())
    else (state, .ok ())

/-- The per-cgroup tail of `ReclaimLoop::reclaim` (src/main.rs:120-132):
`now` is captured, `reclaim_cgroup` runs, then on `Ok` `last_error` is
cleared, on `Err` a warning is emitted iff `last_error` was `None` and
`last_error` is set to `now`; finally `last_seen := now`. Returns the final
state and whether a warning was emitted. -/
def reclaim_step (l : ReclaimLoop) (read1 : Option MemoryStats)
    (writeRes : Option Unit) (read2 : Option MemoryStats)
    (state : ReclaimState) (now tCheck tTrigger : Nat) :
    ReclaimState × Bool :=
  match reclaim_cgroup l read1 writeRes read2 state tCheck tTrigger with
  | (st, .ok _) => ({ st with last_error := none, last_seen := some now }, false)
  | (st, .error _) =>
      ({ st with last_error := some now, last_seen := some now },
        st.last_error.isNone)

/-- The loop body of `get_dir_leaves` (src/main.rs:37-54). `todo` is the
remaining walker output, `leaves` the accumulated result, `dirs` the set of
directories already marked as ancestors of a recorded leaf. For each entry:
skip it when it is already in `dirs`, otherwise record it as a leaf and mark
all of its ancestors (in the rooted model: every component-list prefix,
`p.inits`, mirroring `path.ancestors()`). -/
def leavesAux : List DirPath → List DirPath → List DirPath → List DirPath
  | [], leaves, _ => leaves
  | p :: rest, leaves, dirs =>
    if p ∈ dirs then leavesAux rest leaves dirs
    else leavesAux rest (leaves ++ [p]) (dirs ++ p.inits)

/-- `get_dir_leaves` (src/main.rs:37-54), applied to the output of the
`WalkDir::contents_first(true)` walker. The walker itself is external I/O;
it is modelled by quantifying over any duplicate-free, post-ordered (children
before parents) enumeration of the directory tree in the theorems. -/
def get_dir_leaves (entries : List DirPath) : List DirPath :=
  leavesAux entries [] []

/-- The retention predicate of `ReclaimLoop::cleanup` (src/main.rs:174-182):
keep an entry iff `last_seen` is present and `≥ now`. -/
def keep_state (now : Nat) (state : ReclaimState) : Bool :=
  match state.last_seen with
  | some last_seen => decide (last_seen ≥ now)
  | none => false

/-- `ReclaimLoop::cleanup` (src/main.rs:173-183): `states.retain(...)`,
with the `HashMap` modelled as an association list. -/
def cleanup (now : Nat) (states : List (DirPath × ReclaimState)) :
    List (DirPath × ReclaimState) :=
  states.filter (fun e => keep_state now e.2)

/-- Text is modelled as a list of characters. -/
abbrev Chars := List Char

/-- The character list of a string literal. -/
def str (s : String) : Chars := s.data

/-- Rust `str::trim`, restricted to ASCII whitespace (all that the parsed
cgroup files contain). -/
def trimChars (s : Chars) : Chars :=
  ((s.dropWhile Char.isWhitespace).reverse.dropWhile Char.isWhitespace).reverse

/-- Value of a digit string, most significant digit first. -/
def digitsVal (s : Chars) : Nat :=
  s.foldl (fun acc c => 10 * acc + (c.toNat - 48)) 0

/-- Rust `str::parse::<u64>`: an optional leading `+`, then one or more
ASCII digits, nothing else; the value must fit in 64 bits or the parse
fails (and the caller falls back to its default). -/
def parse_u64 (s : Chars) : Option Nat :=
  let t := match s with
    | '+' :: rest => rest
    | _ => s
  if t.isEmpty then none
  else if t.all Char.isDigit then
    if digitsVal t < 18446744073709551616 then some (digitsVal t) else none
  else none

/-- Rust `str::trim_start_matches`: repeatedly remove the pattern from the
front. Fuel-based recursion; each step removes at least one character, so
`s.length` fuel is exhaustive. -/
def trim_start_matches_aux : Nat → Chars → Chars → Chars
  | 0, _, s => s
  | fuel + 1, pat, s =>
    if pat.isEmpty then s
    else if pat.isPrefixOf s then trim_start_matches_aux fuel pat (s.drop pat.length)
    else s

/-- Rust `str::trim_start_matches`. -/
def trim_start_matches (pat s : Chars) : Chars :=
  trim_start_matches_aux s.length pat s

/-- The key-value line parser of src/main.rs:216-222 (its source name ends
in a word this development avoids in identifiers): trim the line, and if it
starts with the key, strip every leading occurrence of the key and parse the
rest as `u64`. -/
def parse_u64_strip (key line : Chars) : Option Nat :=
  let t := trimChars line
  if key.isPrefixOf t then parse_u64 (trim_start_matches key t)
  else none

/-- The `"rss "` key from src/main.rs:196. -/
def rss_key : Chars := str "rss "

/-- The `"cache "` key from src/main.rs:199. -/
def cache_key : Chars := str "cache "

/-- The line-scanning loop of `get_memory_stats` (src/main.rs:194-204):
fill `rss` and `cache` when still missing, stop once both are found. -/
def scan_stat_lines : List Chars → Option Nat → Option Nat → Option Nat × Option Nat
  | [], rss, cache => (rss, cache)
  | line :: rest, rss, cache =>
    let rss' := if rss.isNone then parse_u64_strip rss_key line else rss
    let cache' := if cache.isNone then parse_u64_strip cache_key line else cache
    if rss'.isSome && cache'.isSome then (rss', cache')
    else scan_stat_lines rest rss' cache'

/-- `get_memory_stats` (src/main.rs:186-214). The two file reads are
explicit inputs (`none` = I/O failure); the stats file is given as its line
list, since the Rust code iterates `string.lines()`. Missing or unparsable
`rss`, `cache` or limit values default to zero via `unwrap_or_default`. -/
def get_memory_stats (statsFile : Option (List Chars)) (limitFile : Option Chars) :
    Except Unit MemoryStats :=
  match statsFile with
  | none => .error ()
  | some statLines =>
    let rc := scan_stat_lines statLines none none
    match limitFile with
    | none => .error ()
    | some s =>
      let limit := parse_u64 (trimChars s)
      .ok ⟨limit.getD 0, rc.2.getD 0, rc.1.getD 0⟩

/-- Rust `str::parse::<f64>`, modelled exactly for plain decimal literals
(optional sign, integer digits, optional `.` and fraction digits) as the
exact rational value. Exponent forms, `inf` and `nan` are not produced by
threshold strings and are not modelled. -/
def parse_decimal (s : Chars) : Option ℚ :=
  let ip := s.takeWhile Char.isDigit
  let rest := s.dropWhile Char.isDigit
  match rest with
  | [] => if ip.isEmpty then none else some ((digitsVal ip : ℚ))
  | '.' :: fp =>
    if fp.all Char.isDigit then
      if ip.isEmpty && fp.isEmpty then none
      else some ((digitsVal ip : ℚ) + (digitsVal fp : ℚ) / ((10 : ℚ) ^ fp.length))
    else none
  | _ => none

/-- Rust `str::parse::<f64>` with the optional sign handled. -/
def parse_f64 (s : Chars) : Option ℚ :=
  match s with
  | '-' :: rest => (parse_decimal rest).map (fun q => -q)
  | '+' :: rest => parse_decimal rest
  | _ => parse_decimal s

/-- Modelled from the `byte_unit` crate (an external dependency, not part
of this repository): the unit-suffix multiplier table, decimal units as
powers of 1000 and binary (`i`) units as powers of 1024, restricted to the
canonical spellings used by the spec and by the repository's own test. -/
def unit_multiplier : Chars → Option Nat
  | [] => some 1
  | ['B'] => some 1
  | ['K', 'B'] => some 1000
  | ['K', 'i', 'B'] => some 1024
  | ['M', 'B'] => some 1000000
  | ['M', 'i', 'B'] => some 1048576
  | ['G', 'B'] => some 1000000000
  | ['G', 'i', 'B'] => some 1073741824
  | ['T', 'B'] => some 1000000000000
  | ['T', 'i', 'B'] => some 1099511627776
  | _ => none

/-- Modelled from the `byte_unit` crate: `Byte::from_str` on an integer
value with an optional unit suffix, then `get_bytes()` cast to `u64`. -/
def byte_from_str (s : Chars) : Option Nat :=
  let t := trimChars s
  let ds := t.takeWhile Char.isDigit
  let u := (t.dropWhile Char.isDigit).dropWhile Char.isWhitespace
  if ds.isEmpty then none
  else (unit_multiplier u).map (fun m => digitsVal ds * m)

/-- `get_threshold` (src/main.rs:239-251): a trailing `%` makes a `Percent`
out of the f64 parse of the rest; otherwise `byte_unit` parsing makes
`Bytes`. -/
def get_threshold (s : Chars) : Option Threshold :=
  match s.getLast? with
  | some '%' => (parse_f64 s.dropLast).map Threshold.Percent
  | _ => (byte_from_str s).map Threshold.Bytes

end CgroupMM

namespace CgroupMM

/-- `reclaim_cgroup` never modifies `last_error`. -/
theorem reclaim_cgroup_last_error (l : ReclaimLoop) (read1 : Option MemoryStats)
    (writeRes : Option Unit) (read2 : Option MemoryStats)
    (state : ReclaimState) (tCheck tTrigger : Nat) :
    (reclaim_cgroup l read1 writeRes read2 state tCheck tTrigger).1.last_error =
      state.last_error := by
  unfold reclaim_cgroup
  cases read1 with
  | none => rfl
  | some stats =>
    simp only
    split
    · cases writeRes with
      | none => rfl
      | some u => cases read2 <;> rfl
    · rfl

/-- C1: under a `Bytes b` threshold, `needs_to_be_reclaimed` is true iff
`stats.cache ≥ b` (inclusive boundary); under a `Percent p` threshold it is
true iff `stats.limit > 0` and `stats.cache ≥ stats.limit * (p / 100)`; and
with `stats.limit = 0` a percent threshold never triggers reclaim. -/
theorem needs_to_be_reclaimed_spec (pa : DirPath) (iv cd b : Nat) (p : ℚ)
    (stats : MemoryStats) :
    (ReclaimLoop.needs_to_be_reclaimed ⟨pa, .Bytes b, iv, cd⟩ stats = true ↔
      stats.cache ≥ b) ∧
    (ReclaimLoop.needs_to_be_reclaimed ⟨pa, .Percent p, iv, cd⟩ stats = true ↔
      stats.limit > 0 ∧ (stats.cache : ℚ) ≥ (stats.limit : ℚ) * (p / 100)) ∧
    (∀ cache rss : Nat,
      ReclaimLoop.needs_to_be_reclaimed ⟨pa, .Percent p, iv, cd⟩ ⟨0, cache, rss⟩ = false) := by
  refine ⟨?_, ?_, ?_⟩
  · simp [ReclaimLoop.needs_to_be_reclaimed]
  · simp [ReclaimLoop.needs_to_be_reclaimed]
  · intro cache rss
    simp [ReclaimLoop.needs_to_be_reclaimed]

/-- C2: `can_be_reclaimed` is true iff `needs_to_be_reclaimed` holds and
either the cgroup was never reclaimed, or the elapsed time since
`last_reclaimed`, truncated to whole seconds, strictly exceeds the cooldown. -/
theorem can_be_reclaimed_spec (l : ReclaimLoop) (stats : MemoryStats)
    (state : ReclaimState) (now : Nat) :
    l.can_be_reclaimed stats state now = true ↔
      l.needs_to_be_reclaimed stats = true ∧
        (state.last_reclaimed = none ∨
          ∃ lr, state.last_reclaimed = some lr ∧
            duration_as_secs (now - lr) > l.cooldown) := by
  unfold ReclaimLoop.can_be_reclaimed
  cases hn : l.needs_to_be_reclaimed stats with
  | false => simp
  | true =>
    cases hlr : state.last_reclaimed with
    | none => simp
    | some lr => simp

/-- C10: under a `Percent p` threshold with `p ≤ 0`, `needs_to_be_reclaimed`
is true for every stats value with `limit > 0`, even with `cache = 0`, since
any non-negative cache compares `≥` against a non-positive bound. -/
theorem needs_to_be_reclaimed_nonpos_percent (pa : DirPath) (iv cd : Nat) (p : ℚ)
    (hp : p ≤ 0) (stats : MemoryStats) (hl : 0 < stats.limit) :
    ReclaimLoop.needs_to_be_reclaimed ⟨pa, .Percent p, iv, cd⟩ stats = true := by
  simp only [ReclaimLoop.needs_to_be_reclaimed, Bool.and_eq_true, decide_eq_true_eq]
  refine ⟨hl, ?_⟩
  have hb : (stats.limit : ℚ) * (p / 100) ≤ 0 :=
    mul_nonpos_of_nonneg_of_nonpos (by positivity)
      (div_nonpos_of_nonpos_of_nonneg hp (by norm_num))
  exact le_trans hb (by positivity)

/-- Witness for C10: `p = 0`, `limit = 1`, `cache = 0` triggers reclaim. -/
theorem needs_to_be_reclaimed_nonpos_percent_witness :
    ReclaimLoop.needs_to_be_reclaimed ⟨[], .Percent 0, 10, 30⟩ ⟨1, 0, 0⟩ = true :=
  needs_to_be_reclaimed_nonpos_percent [] 10 30 0 (by norm_num) ⟨1, 0, 0⟩ (by norm_num)

/-- Counterexample to C3: with a `Bytes 0` threshold (reclaim always due),
a fresh state, a successful first read and trigger, and a failing second
read, `reclaim_cgroup` returns `Err`, so the per-cgroup step emits a warning
and sets `last_error` — the second read failure is NOT non-fatal. -/
theorem reclaim_second_read_cex :
    (reclaim_cgroup ⟨[], .Bytes 0, 10, 30⟩ (some ⟨0, 0, 0⟩) (some ()) none
        ⟨none, none, none⟩ 2 3).2 = Except.error () ∧
    (reclaim_step ⟨[], .Bytes 0, 10, 30⟩ (some ⟨0, 0, 0⟩) (some ()) none
        ⟨none, none, none⟩ 1 2 3).2 = true ∧
    (reclaim_step ⟨[], .Bytes 0, 10, 30⟩ (some ⟨0, 0, 0⟩) (some ()) none
        ⟨none, none, none⟩ 1 2 3).1.last_error = some 1 :=
  ⟨rfl, rfl, rfl⟩

/-- C3 (amended): when the trigger succeeds but the post-trigger second stats
read fails, `reclaim_cgroup` returns an error — so the per-cgroup step sets
`last_error = now` and emits a warning iff `last_error` was previously absent
— while `last_reclaimed` remains set to the trigger time. -/
theorem reclaim_second_read_fatal (l : ReclaimLoop) (stats : MemoryStats)
    (state : ReclaimState) (now tCheck tTrigger : Nat)
    (h : l.can_be_reclaimed stats state tCheck = true) :
    reclaim_cgroup l (some stats) (some ()) none state tCheck tTrigger =
      ({ state with last_reclaimed := some tTrigger }, Except.error ()) ∧
    (reclaim_step l (some stats) (some ()) none state now tCheck tTrigger).1 =
      { state with last_reclaimed := some tTrigger,
                   last_error := some now, last_seen := some now } ∧
    (reclaim_step l (some stats) (some ()) none state now tCheck tTrigger).2 =
      state.last_error.isNone := by
  have h1 : reclaim_cgroup l (some stats) (some ()) none state tCheck tTrigger =
      ({ state with last_reclaimed := some tTrigger }, Except.error ()) := by
    unfold reclaim_cgroup
    simp [h]
  refine ⟨h1, ?_, ?_⟩
  · unfold reclaim_step
    rw [h1]
  · unfold reclaim_step
    rw [h1]

/-- Witness for C3 (amended), at the counterexample input. -/
theorem reclaim_second_read_fatal_witness :
    reclaim_cgroup ⟨[], .Bytes 0, 10, 30⟩ (some ⟨0, 0, 0⟩) (some ()) none
        ⟨none, none, none⟩ 2 3 =
      (⟨none, some 3, none⟩, Except.error ()) ∧
    (reclaim_step ⟨[], .Bytes 0, 10, 30⟩ (some ⟨0, 0, 0⟩) (some ()) none
        ⟨none, none, none⟩ 1 2 3).1 = ⟨some 1, some 3, some 1⟩ ∧
    (reclaim_step ⟨[], .Bytes 0, 10, 30⟩ (some ⟨0, 0, 0⟩) (some ()) none
        ⟨none, none, none⟩ 1 2 3).2 = (none : Option Nat).isNone :=
  reclaim_second_read_fatal ⟨[], .Bytes 0, 10, 30⟩ ⟨0, 0, 0⟩
    ⟨none, none, none⟩ 1 2 3 (by decide)

/-- Counterexample to C4: `reclaim_cgroup` returns an error (failing second
read) yet `last_reclaimed` differs from its value before the call. -/
theorem reclaim_cgroup_error_changes_state_cex :
    (reclaim_cgroup ⟨[], .Bytes 0, 10, 30⟩ (some ⟨0, 5, 0⟩) (some ()) none
        ⟨none, none, none⟩ 7 9).2 = Except.error () ∧
    (reclaim_cgroup ⟨[], .Bytes 0, 10, 30⟩ (some ⟨0, 5, 0⟩) (some ()) none
        ⟨none, none, none⟩ 7 9).1.last_reclaimed ≠
      (⟨none, none, none⟩ : ReclaimState).last_reclaimed :=
  ⟨rfl, by decide⟩

/-- C4 (amended): an error from the first stats read or from the trigger
write leaves `last_reclaimed` unchanged; only the post-trigger second-read
error path returns an error with `last_reclaimed` updated. -/
theorem reclaim_cgroup_atomic (l : ReclaimLoop) (read1 : Option MemoryStats)
    (writeRes : Option Unit) (read2 : Option MemoryStats)
    (state : ReclaimState) (tCheck tTrigger : Nat)
    (h : read1 = none ∨ writeRes = none) :
    (reclaim_cgroup l read1 writeRes read2 state tCheck tTrigger).1.last_reclaimed =
      state.last_reclaimed := by
  unfold reclaim_cgroup
  rcases h with h | h
  · subst h; rfl
  · subst h
    cases read1 with
    | none => rfl
    | some stats =>
      simp only
      split <;> rfl

/-- Witness for C4 (amended): a failing first read leaves `last_reclaimed`
unchanged. -/
theorem reclaim_cgroup_atomic_witness :
    (reclaim_cgroup ⟨[], .Bytes 0, 10, 30⟩ none (some ()) (some ⟨0, 0, 0⟩)
        ⟨none, some 4, none⟩ 7 9).1.last_reclaimed = some 4 :=
  reclaim_cgroup_atomic ⟨[], .Bytes 0, 10, 30⟩ none (some ()) (some ⟨0, 0, 0⟩)
    ⟨none, some 4, none⟩ 7 9 (Or.inl rfl)

/-- C8: the per-cgroup step emits a warning iff the evaluation failed and
`last_error` was absent immediately before; every failure sets `last_error`
to `some now`, and every success resets it to `none`. -/
theorem reclaim_step_warning (l : ReclaimLoop) (read1 : Option MemoryStats)
    (writeRes : Option Unit) (read2 : Option MemoryStats)
    (state : ReclaimState) (now tCheck tTrigger : Nat) :
    ((reclaim_step l read1 writeRes read2 state now tCheck tTrigger).2 = true ↔
      (reclaim_cgroup l read1 writeRes read2 state tCheck tTrigger).2 =
        Except.error () ∧ state.last_error = none) ∧
    ((reclaim_cgroup l read1 writeRes read2 state tCheck tTrigger).2 =
        Except.error () →
      (reclaim_step l read1 writeRes read2 state now tCheck tTrigger).1.last_error =
        some now) ∧
    ((reclaim_cgroup l read1 writeRes read2 state tCheck tTrigger).2 =
        Except.ok () →
      (reclaim_step l read1 writeRes read2 state now tCheck tTrigger).1.last_error =
        none) := by
  have hle := reclaim_cgroup_last_error l read1 writeRes read2 state tCheck tTrigger
  rcases hres : reclaim_cgroup l read1 writeRes read2 state tCheck tTrigger with ⟨st, r⟩
  rw [hres] at hle
  replace hle : st.last_error = state.last_error := hle
  unfold reclaim_step
  rw [hres]
  cases r with
  | ok u =>
    refine ⟨?_, ?_, ?_⟩
    · simp
    · intro hc; exact absurd hc (by simp)
    · intro _; simp
  | error e =>
    cases e
    refine ⟨?_, ?_, ?_⟩
    · simp [hle, Option.isNone_iff_eq_none]
    · intro _; simp
    · intro hc; exact absurd hc (by simp)

/-- Witness for C8: first failure from an armed state warns and records. -/
theorem reclaim_step_warning_witness :
    (reclaim_step ⟨[], .Bytes 0, 10, 30⟩ none (some ()) (some ⟨0, 0, 0⟩)
        ⟨none, none, none⟩ 5 6 7).2 = true ∧
    (reclaim_step ⟨[], .Bytes 0, 10, 30⟩ none (some ()) (some ⟨0, 0, 0⟩)
        ⟨none, none, none⟩ 5 6 7).1.last_error = some 5 :=
  ⟨(reclaim_step_warning ⟨[], .Bytes 0, 10, 30⟩ none (some ()) (some ⟨0, 0, 0⟩)
      ⟨none, none, none⟩ 5 6 7).1.mpr ⟨rfl, rfl⟩,
   (reclaim_step_warning ⟨[], .Bytes 0, 10, 30⟩ none (some ()) (some ⟨0, 0, 0⟩)
      ⟨none, none, none⟩ 5 6 7).2.1 rfl⟩

/-- C5: `cleanup` retains exactly the entries whose `last_seen` is present
and `≥ now`, removing those whose `last_seen` is absent or strictly older;
in particular, of three entries with `last_seen` equal to `none`,
`now - 1s` and `now + 1s`, only the third survives. -/
theorem cleanup_spec :
    (∀ (now : Nat) (states : List (DirPath × ReclaimState))
        (e : DirPath × ReclaimState),
      e ∈ cleanup now states ↔
        e ∈ states ∧ ∃ ls, e.2.last_seen = some ls ∧ ls ≥ now) ∧
    cleanup 1000000000
        [([0], ⟨none, none, none⟩),
         ([1], ⟨some 0, none, none⟩),
         ([2], ⟨some 2000000000, none, none⟩)] =
      [([2], ⟨some 2000000000, none, none⟩)] := by
  constructor
  · intro now states e
    unfold cleanup
    rw [List.mem_filter]
    unfold keep_state
    cases hls : e.2.last_seen with
    | none => simp [hls]
    | some ls => simp [hls]
  · rfl

/-- Loop invariant of `leavesAux`: if `leaves` holds exactly the processed
entries without a strict descendant among the processed entries, `dirs` holds
exactly the ancestors of recorded leaves, and every processed entry has some
recorded leaf below-or-equal to it, then running the loop over the remaining
post-ordered, duplicate-free entries yields exactly the entries with no
strict descendant among all entries. -/
theorem leavesAux_inv (todo : List DirPath) :
    ∀ (done leaves dirs : List DirPath),
      (done ++ todo).Nodup →
      (done ++ todo).Pairwise (fun a b => ¬ (a <+: b ∧ a ≠ b)) →
      (∀ x, x ∈ leaves ↔ x ∈ done ∧ ∀ q ∈ done, ¬ (x <+: q ∧ x ≠ q)) →
      (∀ x, x ∈ dirs ↔ ∃ l ∈ leaves, x <+: l) →
      (∀ q ∈ done, ∃ l ∈ leaves, q <+: l) →
      ∀ x, x ∈ leavesAux todo leaves dirs ↔
        x ∈ done ++ todo ∧ ∀ q ∈ done ++ todo, ¬ (x <+: q ∧ x ≠ q) := by
  induction todo with
  | nil =>
    intro done leaves dirs hnd hpw hlv hdr hds x
    simp only [leavesAux, List.append_nil]
    exact hlv x
  | cons p rest ih =>
    intro done leaves dirs hnd hpw hlv hdr hds x
    have hpd : p ∉ done := by
      rcases List.nodup_append.mp hnd with ⟨-, -, hdisj⟩
      intro hp
      exact hdisj hp (List.mem_cons_self p rest)
    have hprev : ∀ y ∈ done, ¬ (y <+: p ∧ y ≠ p) := by
      rcases List.pairwise_append.mp hpw with ⟨-, -, hcross⟩
      intro y hy
      exact hcross y hy p (List.mem_cons_self p rest)
    have hre : done ++ p :: rest = (done ++ [p]) ++ rest := List.append_cons done p rest
    rw [hre] at hnd hpw ⊢
    simp only [leavesAux]
    by_cases hmem : p ∈ dirs
    · rw [if_pos hmem]
      obtain ⟨l, hl, hpl⟩ := (hdr p).mp hmem
      have hld : l ∈ done := ((hlv l).mp hl).1
      have hlp : l ≠ p := fun h => hpd (h ▸ hld)
      have hlv' : ∀ y, y ∈ leaves ↔
          y ∈ done ++ [p] ∧ ∀ q ∈ done ++ [p], ¬ (y <+: q ∧ y ≠ q) := by
        intro y
        constructor
        · intro hy
          obtain ⟨hyd, hyq⟩ := (hlv y).mp hy
          refine ⟨by simp [hyd], ?_⟩
          intro q hq
          rcases List.mem_append.mp hq with hq | hq
          · exact hyq q hq
          · have hqp : q = p := by simpa using hq
            subst hqp
            exact hprev y hyd
        · rintro ⟨hyd, hyq⟩
          rcases List.mem_append.mp hyd with hyd | hyd
          · exact (hlv y).mpr ⟨hyd, fun q hq => hyq q (by simp [hq])⟩
          · have hyp : y = p := by simpa using hyd
            subst hyp
            exact absurd ⟨hpl, fun h => hlp h.symm⟩ (hyq l (by simp [hld]))
      have hds' : ∀ q ∈ done ++ [p], ∃ l' ∈ leaves, q <+: l' := by
        intro q hq
        rcases List.mem_append.mp hq with hq | hq
        · exact hds q hq
        · have hqp : q = p := by simpa using hq
          subst hqp
          exact ⟨l, hl, hpl⟩
      exact ih (done ++ [p]) leaves dirs hnd hpw hlv' hdr hds' x
    · rw [if_neg hmem]
      have hlv' : ∀ y, y ∈ leaves ++ [p] ↔
          y ∈ done ++ [p] ∧ ∀ q ∈ done ++ [p], ¬ (y <+: q ∧ y ≠ q) := by
        intro y
        constructor
        · intro hy
          rcases List.mem_append.mp hy with hy | hy
          · obtain ⟨hyd, hyq⟩ := (hlv y).mp hy
            refine ⟨by simp [hyd], ?_⟩
            intro q hq
            rcases List.mem_append.mp hq with hq | hq
            · exact hyq q hq
            · have hqp : q = p := by simpa using hq
              subst hqp
              exact hprev y hyd
          · have hyp : y = p := by simpa using hy
            refine ⟨by simp [hyp], ?_⟩
            intro q hq hcon
            rcases List.mem_append.mp hq with hq | hq
            · obtain ⟨l', hl', hql⟩ := hds q hq
              apply hmem
              rw [← hyp]
              exact (hdr y).mpr ⟨l', hl', hcon.1.trans hql⟩
            · have hqp : q = p := by simpa using hq
              exact hcon.2 (hyp.trans hqp.symm)
        · rintro ⟨hyd, hyq⟩
          rcases List.mem_append.mp hyd with hyd | hyd
          · exact List.mem_append.mpr
              (Or.inl ((hlv y).mpr ⟨hyd, fun q hq => hyq q (by simp [hq])⟩))
          · exact List.mem_append.mpr (Or.inr hyd)
      have hdr' : ∀ y, y ∈ dirs ++ p.inits ↔ ∃ l' ∈ leaves ++ [p], y <+: l' := by
        intro y
        rw [List.mem_append, hdr y, List.mem_inits]
        constructor
        · rintro (⟨l', hl', hyl⟩ | hyp)
          · exact ⟨l', by simp [hl'], hyl⟩
          · exact ⟨p, by simp, hyp⟩
        · rintro ⟨l', hl', hyl⟩
          rcases List.mem_append.mp hl' with hl' | hl'
          · exact Or.inl ⟨l', hl', hyl⟩
          · have hlq : l' = p := by simpa using hl'
            subst hlq
            exact Or.inr hyl
      have hds' : ∀ q ∈ done ++ [p], ∃ l' ∈ leaves ++ [p], q <+: l' := by
        intro q hq
        rcases List.mem_append.mp hq with hq | hq
        · obtain ⟨l', hl', hql⟩ := hds q hq
          exact ⟨l', by simp [hl'], hql⟩
        · have hqp : q = p := by simpa using hq
          refine ⟨p, by simp, ?_⟩
          rw [hqp]
      exact ih (done ++ [p]) (leaves ++ [p]) (dirs ++ p.inits) hnd hpw hlv' hdr' hds' x

/-- C6: for any duplicate-free, post-ordered (children before parents)
enumeration of the directories of a tree rooted at `root` — any order the
contents-first walker can produce — `get_dir_leaves` returns exactly the
directories of the tree that contain no child directory. -/
theorem get_dir_leaves_spec (root : DirPath) (entries : List DirPath)
    (hnd : entries.Nodup)
    (hpost : entries.Pairwise (fun a b => ¬ (a <+: b ∧ a ≠ b)))
    (hroot : ∀ p ∈ entries, root <+: p)
    (hclose : ∀ q ∈ entries, ∀ r ∈ q.inits, root <+: r → r ∈ entries) :
    ∀ x, x ∈ get_dir_leaves entries ↔
      x ∈ entries ∧ ∀ c : Nat, x ++ [c] ∉ entries := by
  intro x
  have hmain := leavesAux_inv entries [] [] [] (by simpa using hnd)
    (by simpa using hpost) (by simp) (by simp) (by simp) x
  rw [List.nil_append] at hmain
  unfold get_dir_leaves
  rw [hmain]
  constructor
  · rintro ⟨hx, hq⟩
    refine ⟨hx, ?_⟩
    intro c hc
    exact hq (x ++ [c]) hc ⟨⟨[c], rfl⟩, by simp⟩
  · rintro ⟨hx, hc⟩
    refine ⟨hx, ?_⟩
    rintro q hq ⟨⟨r, hr⟩, hne⟩
    subst hr
    cases r with
    | nil => exact hne (by simp)
    | cons c r' =>
      have hchild : x ++ [c] ∈ entries := by
        refine hclose (x ++ c :: r') hq (x ++ [c]) ?_ ?_
        · rw [List.mem_inits]
          exact ⟨r', by simp⟩
        · exact (hroot x hx).trans ⟨[c], rfl⟩
      exact hc c hchild

/-- Witness for C6: a three-level tree, walked post-order; `[1, 0]` is a
deepest directory and is returned; its siblings at depth two likewise; the
inner directories are not. -/
theorem get_dir_leaves_spec_witness :
    [1, 0] ∈ ([[0, 0], [0, 1], [0], [1, 0], [1], []] : List DirPath) ∧
    ∀ c : Nat,
      [1, 0] ++ [c] ∉ ([[0, 0], [0, 1], [0], [1, 0], [1], []] : List DirPath) :=
  (get_dir_leaves_spec [] [[0, 0], [0, 1], [0], [1, 0], [1], []]
    (by decide) (by decide) (by decide) (by decide) [1, 0]).mp (by decide)

/-- C7: `get_memory_stats` fails iff one of the two files cannot be read at
all; on any readable contents it succeeds, with missing or unparsable `rss`,
`cache` and limit values defaulting to zero (shown on a stats file with no
parsable line and an unparsable limit file). -/
theorem get_memory_stats_spec :
    (∀ (sf : Option (List Chars)) (lf : Option Chars),
      (∃ e, get_memory_stats sf lf = Except.error e) ↔ sf = none ∨ lf = none) ∧
    get_memory_stats (some [str "hello", str "world"]) (some (str "abc")) =
      Except.ok ⟨0, 0, 0⟩ := by
  constructor
  · intro sf lf
    constructor
    · rintro ⟨e, he⟩
      cases sf with
      | none => exact Or.inl rfl
      | some statLines =>
        cases lf with
        | none => exact Or.inr rfl
        | some s => simp [get_memory_stats] at he
    · rintro (h | h)
      · subst h
        exact ⟨(), rfl⟩
      · subst h
        cases sf with
        | none => exact ⟨(), rfl⟩
        | some statLines => exact ⟨(), rfl⟩
  · rfl

/-- C9: `get_threshold` maps each of the eight spec strings to its stated
value, matching the repository's own `test_threshold`. -/
theorem get_threshold_spec :
    get_threshold (str "50%") = some (Threshold.Percent 50) ∧
    get_threshold (str "100") = some (Threshold.Bytes 100) ∧
    get_threshold (str "100KB") = some (Threshold.Bytes 100000) ∧
    get_threshold (str "100KiB") = some (Threshold.Bytes 102400) ∧
    get_threshold (str "100MB") = some (Threshold.Bytes 100000000) ∧
    get_threshold (str "100MiB") = some (Threshold.Bytes 104857600) ∧
    get_threshold (str "100GB") = some (Threshold.Bytes 100000000000) ∧
    get_threshold (str "100GiB") = some (Threshold.Bytes 107374182400) := by
  refine ⟨?_, ?_, ?_, ?_, ?_, ?_, ?_, ?_⟩ <;> decide

end CgroupMM
